import Mathlib

/-!
Verification development for the BajajFin retrieval subsystem.

Shallow embedding of the core retrieval code:
  * `app/services/chunker.py` (`chunk_text`)
  * `app/services/vector_search.py` (`FAISSClient`, `PineconeClient`,
    `create_vector_client`)
  * `app/services/embedding_engine.py` (`get_embedding`,
    `get_embeddings_batch`)
  * `app/api/endpoints.py` (`run_query`)
  * `app/core/config.py` (`Settings`)

Embeddings are modelled over `Int` (the code uses Python / numpy
floats; the claims checked here concern counts, identifiers, control
flow and orderings, none of which depend on the scalar type).  External
collaborators (the remote Pinecone service, the FAISS C++ library's
`normalize_L2` and `IndexFlat.search`, the embedding-provider HTTP
calls, the LLM) are modelled as explicit parameters or, where the spec
pins their behaviour down, as functions modelled from the spec.
-/

deriving instance DecidableEq for Except

namespace BajajFin

/-! ## Chunker: `app/services/chunker.py` -/

/-- Accumulator pass behind `pySplit`: walks the characters, collecting
the current word in `acc` (reversed) and emitting it at each whitespace
run boundary. -/
def splitWsAux : List Char → List Char → List String
  | [], acc => if acc.isEmpty then [] else [String.mk acc.reverse]
  | c :: cs, acc =>
    if c.isWhitespace then
      if acc.isEmpty then splitWsAux cs []
      else String.mk acc.reverse :: splitWsAux cs []
    else splitWsAux cs (c :: acc)

/-- Python `str.split()` with no argument: split on runs of whitespace,
dropping empty pieces.  Models `text.split()` in `chunk_text`. -/
def pySplit (s : String) : List String :=
  splitWsAux s.toList []

/-- `" ".join(chunk)` from `chunk_text`. -/
def joinWords (ws : List String) : String :=
  String.intercalate " " ws

/-- The `while start < len(words)` loop of `chunk_text`, fuel-indexed.
Each iteration appends `" ".join(words[start:start+size])` and advances
`start` by `size - overlap` (Nat subtraction: when `overlap >= size` the
start does not advance, exactly as the Python loop fails to advance).
`none` means the fuel ran out, i.e. the loop has not terminated within
`fuel` iterations. -/
def chunkLoop : Nat → List String → Nat → Nat → Nat → Option (List String)
  | 0, _, _, _, _ => none
  | fuel + 1, words, size, overlap, start =>
    if start < words.length then
      match chunkLoop fuel words size overlap (start + (size - overlap)) with
      | some rest => some (joinWords ((words.drop start).take size) :: rest)
      | none => none
    else
      some []

/-- `chunk_text(text, size, overlap)` from `app/services/chunker.py`.
Returns `none` when the underlying while loop does not terminate within
`words.length + 1` iterations (with `overlap < size` the start strictly
advances each step, so that much fuel always suffices; see
`chunkLoop_isSome_of_fuel`). -/
def chunk_text (text : String) (size : Nat) (overlap : Nat) : Option (List String) :=
  let words := pySplit text
  if words.isEmpty then some []
  else chunkLoop (words.length + 1) words size overlap 0

theorem chunkLoop_succ (fuel : Nat) (words : List String) (size overlap start : Nat) :
    chunkLoop (fuel + 1) words size overlap start =
      if start < words.length then
        match chunkLoop fuel words size overlap (start + (size - overlap)) with
        | some rest => some (joinWords ((words.drop start).take size) :: rest)
        | none => none
      else some [] := rfl

/-- With a strictly positive advance, fuel covering the remaining words
suffices for the loop to terminate. -/
theorem chunkLoop_isSome_of_fuel (words : List String) (size overlap : Nat)
    (hlt : overlap < size) :
    ∀ fuel start, words.length ≤ start + fuel →
      (chunkLoop (fuel + 1) words size overlap start).isSome := by
  intro fuel
  induction fuel with
  | zero =>
    intro start h
    rw [chunkLoop_succ]
    have : ¬ start < words.length := by omega
    simp [this]
  | succ n ih =>
    intro start h
    rw [chunkLoop_succ]
    by_cases hs : start < words.length
    · have hadv : 1 ≤ size - overlap := by omega
      have := ih (start + (size - overlap)) (by omega)
      simp only [hs, if_true]
      rcases Option.isSome_iff_exists.mp this with ⟨rest, hrest⟩
      rw [hrest]
      simp
    · simp [hs]

/-- With `overlap < size`, from any in-range start position the loop
produces a chunk list whose last chunk is a window that reaches the end
of the word list (so the final, possibly short, window is never
dropped). -/
theorem chunkLoop_last (ws : List String) (size ov : Nat) (hlt : ov < size) :
    ∀ fuel start, start < ws.length → ws.length ≤ start + fuel →
      ∃ cs s, chunkLoop (fuel + 1) ws size ov start = some cs ∧
        cs.getLast? = some (joinWords ((ws.drop s).take size)) ∧
        start ≤ s ∧ s < ws.length ∧ ws.length ≤ s + size := by
  intro fuel
  induction fuel with
  | zero =>
    intro start h1 h2
    omega
  | succ n ih =>
    intro start h1 h2
    have hadv : 1 ≤ size - ov := by omega
    by_cases hs : start + (size - ov) < ws.length
    · obtain ⟨cs', s, hloop, hlast, hs1, hs2, hs3⟩ :=
        ih (start + (size - ov)) hs (by omega)
      refine ⟨joinWords ((ws.drop start).take size) :: cs', s, ?_, ?_, by omega, hs2, hs3⟩
      · rw [chunkLoop_succ, if_pos h1, hloop]
      · match cs', hlast with
        | b :: t, hlast => rw [List.getLast?_cons_cons]; exact hlast
    · refine ⟨[joinWords ((ws.drop start).take size)], start, ?_, rfl, le_refl _, h1, by omega⟩
      rw [chunkLoop_succ, if_pos h1, chunkLoop_succ, if_neg hs]

/-- Characters of the document `"w w w ... w "` with `n` words, used as a
concrete 500-word document. -/
def wChars : Nat → List Char
  | 0 => []
  | n + 1 => 'w' :: ' ' :: wChars n

theorem splitWsAux_wChars : ∀ n, splitWsAux (wChars n) [] = List.replicate n "w" := by
  intro n
  induction n with
  | zero => rfl
  | succ k ih =>
    have h1 : ('w'.isWhitespace) = false := by decide
    have h2 : (' '.isWhitespace) = true := by decide
    simp [wChars, splitWsAux, h1, h2, ih, List.replicate_succ]

/-- **C5**: chunking a 500-word document with `size = 300` and
`overlap = 50` yields exactly two chunks, the first the join of the
first 300 words and the second the join of words 251–500; and in
general (for `overlap < size`) the final window may be shorter than
`size`, is never dropped, and always reaches the last word. -/
theorem c5_chunk_scenario :
    (∀ text : String, (pySplit text).length = 500 →
      chunk_text text 300 50 =
        some [joinWords ((pySplit text).take 300), joinWords ((pySplit text).drop 250)]) ∧
    (∀ (ws : List String) (size ov : Nat), ov < size → ws ≠ [] →
      ∃ cs s, chunkLoop (ws.length + 1) ws size ov 0 = some cs ∧
        cs.getLast? = some (joinWords ((ws.drop s).take size)) ∧
        s < ws.length ∧ ws.length ≤ s + size ∧ ((ws.drop s).take size).length ≤ size) := by
  constructor
  · intro text h
    have hnil : pySplit text ≠ [] := by
      intro hnil; rw [hnil] at h; simp at h
    rw [chunk_text]
    simp only [List.isEmpty_iff]
    rw [if_neg (by simp [List.isEmpty_iff, hnil])]
    rw [h]
    rw [show (500 : Nat) + 1 = 499 + 1 + 1 from rfl, chunkLoop_succ, if_pos (by omega)]
    rw [show (0 : Nat) + (300 - 50) = 250 from rfl]
    rw [show (499 : Nat) + 1 = 498 + 1 + 1 from rfl, chunkLoop_succ, if_pos (by omega)]
    rw [show (250 : Nat) + (300 - 50) = 500 from rfl]
    rw [show (498 : Nat) + 1 = 497 + 1 + 1 from rfl, chunkLoop_succ, if_neg (by omega)]
    simp [List.drop_zero,
      List.take_of_length_le (by rw [List.length_drop]; omega : (pySplit text |>.drop 250).length ≤ 300)]
  · intro ws size ov hlt hne
    obtain ⟨cs, s, hloop, hlast, _, hs2, hs3⟩ :=
      chunkLoop_last ws size ov hlt ws.length 0 (List.length_pos.mpr hne) (by omega)
    exact ⟨cs, s, hloop, hlast, hs2, hs3, by simp [List.length_take]⟩

/-- Witness for C5: a concrete 500-word document produces exactly the
two expected chunks, and a concrete two-word chunking with
`size = 2, overlap = 1` terminates. -/
theorem c5_chunk_scenario_witness :
    (chunk_text (String.mk (wChars 500)) 300 50 =
      some [joinWords (List.replicate 300 "w"), joinWords (List.replicate 250 "w")]) ∧
    (chunkLoop (["a", "b"].length + 1) ["a", "b"] 2 1 0).isSome = true := by
  constructor
  · have hw : pySplit (String.mk (wChars 500)) = List.replicate 500 "w" :=
      splitWsAux_wChars 500
    have h := c5_chunk_scenario.1 (String.mk (wChars 500)) (by rw [hw, List.length_replicate])
    rw [h, hw, List.take_replicate, List.drop_replicate]
    norm_num
  · obtain ⟨cs, s, hloop, -, -, -, -⟩ :=
      c5_chunk_scenario.2 ["a", "b"] 2 1 (by omega) (by simp)
    rw [hloop]; rfl

/-- **C6**: the chunker terminates whenever `overlap < size` (the start
strictly advances), but for `overlap >= size` on a nonempty input the
`while` loop never terminates and no configuration error is raised:
no amount of fuel makes the loop finish on `chunk_text("a", 2, 2)`. -/
theorem c6_chunker_overlap_ge_size_loops :
    (∀ (ws : List String) (size ov : Nat), ov < size →
      (chunkLoop (ws.length + 1) ws size ov 0).isSome = true) ∧
    (∀ fuel, chunkLoop fuel ["a"] 2 2 0 = none) ∧
    chunk_text "a" 2 2 = none := by
  refine ⟨?_, ?_, ?_⟩
  · intro ws size ov hlt
    exact chunkLoop_isSome_of_fuel ws size ov hlt ws.length 0 (by omega)
  · intro fuel
    induction fuel with
    | zero => rfl
    | succ n ih =>
      rw [chunkLoop_succ, if_pos (by simp), show (0 : Nat) + (2 - 2) = 0 from rfl, ih]
  · decide

/-- Witness for C6: the termination half applied at a concrete valid
configuration. -/
theorem c6_chunker_overlap_ge_size_loops_witness :
    (chunkLoop (["a"].length + 1) ["a"] 2 1 0).isSome = true :=
  c6_chunker_overlap_ge_size_loops.1 ["a"] 2 1 (by omega)

/-! ## Local flat index: `FAISSClient` in `app/services/vector_search.py`

Embeddings are stored over `Int`.  The FAISS library calls
(`faiss.normalize_L2`, `IndexFlatIP.search`) are external C++ code, so:
`normalize_L2` is kept as an explicit function parameter `norm` applied
row-wise (the claims below hold for every such function), and the exact
inner-product top-k search is modelled from the spec: score every
stored row by inner product with the (normalized) query, order by
descending score with ties broken by insertion order, return the
requested number of results.  Python `dict`s (`self.metadata`,
`self.id_mapping`) are modelled as insertion-ordered association lists
with update-in-place semantics. -/

/-- Metadata dictionary value (`dict` of string keys/values, e.g.
`{"text": chunk}` in `endpoints.py`). -/
abbrev Meta := List (String × String)

/-- `d[k]` lookup in a Python dict modelled as an assoc list. -/
def dictGet {α : Type} : List (String × α) → String → Option α
  | [], _ => none
  | (k', v) :: rest, k => if k' = k then some v else dictGet rest k

/-- `d[k] = v` on a Python dict: overwrite in place when the key exists,
append otherwise. -/
def dictSet {α : Type} : List (String × α) → String → α → List (String × α)
  | [], k, v => [(k, v)]
  | (k', v') :: rest, k, v =>
    if k' = k then (k, v) :: rest else (k', v') :: dictSet rest k v

/-- One record handed to `upsert`: `(id, embedding, metadata)`. -/
abbrev VecTuple := String × List Int × Meta

/-- In-memory state of a `FAISSClient`: the flat vector store plus the
two dictionaries (`self.metadata`, `self.id_mapping`). -/
structure FaissState where
  dimension : Nat
  vectors : List (List Int)
  metadata : List (String × Meta)
  idMapping : List (String × String)
deriving DecidableEq

/-- The `for i, (vector_id, embedding, metadata) in enumerate(vectors)`
loop of `FAISSClient.upsert`: writes `self.metadata[vector_id]` and
`self.id_mapping[str(start_idx + i)]` for every record, in order. -/
def upsertWrites : List (String × Meta) → List (String × String) → Nat →
    List VecTuple → List (String × Meta) × List (String × String)
  | md, im, _, [] => (md, im)
  | md, im, startIdx, (vid, _, m) :: rest =>
    upsertWrites (dictSet md vid m) (dictSet im (toString startIdx) vid) (startIdx + 1) rest

/-- `FAISSClient.upsert`.  The metadata and id-mapping writes happen
first, for every record; only then is the embedding matrix built and
added to the FAISS index.  `np.array` / `index.add` raise a Python
exception when the batch is empty or any embedding's length differs
from the index dimension; the pair returned here is
`(raised exception?, state of the client object afterwards)` — on an
exception the dictionaries keep their new contents while the vector
store is untouched, exactly as in the source. -/
def FaissState.upsert (norm : List Int → List Int) (st : FaissState)
    (vectors : List VecTuple) : Option String × FaissState :=
  let startIdx := st.vectors.length
  let w := upsertWrites st.metadata st.idMapping startIdx vectors
  let mutated : FaissState := { st with metadata := w.1, idMapping := w.2 }
  if vectors.isEmpty = false ∧ vectors.all (fun v => v.2.1.length = st.dimension) = true then
    (none, { mutated with vectors := st.vectors ++ vectors.map (fun v => norm v.2.1) })
  else
    (some "numpy array conversion or faiss add failed", mutated)

/-- Inner product of two stored rows (rows always share the index
dimension when written through `upsert`). -/
def innerProd (a b : List Int) : Int :=
  (a.zipWith (· * ·) b).sum

/-- Every stored position paired with its inner-product score against
the normalized query. -/
def scoredPositions (rows : List (List Int)) (q : List Int) : List (Nat × Int) :=
  (List.range rows.length).map (fun i => (i, innerProd q (rows.getD i [])))

/-- Insert into a descending-by-score list, before the first entry with
a score not larger — so earlier positions stay ahead on ties. -/
def insertDesc (x : Nat × Int) : List (Nat × Int) → List (Nat × Int)
  | [] => [x]
  | y :: ys => if x.2 < y.2 then y :: insertDesc x ys else x :: y :: ys

/-- Stable descending sort by score.  Modelled from the spec: matches
are ordered by descending score, ties broken by insertion order. -/
def sortDesc : List (Nat × Int) → List (Nat × Int)
  | [] => []
  | x :: xs => insertDesc x (sortDesc xs)

/-- One entry of the list returned by `FAISSClient.query`; `metadata =
none` models the `'metadata'` key being absent from the result dict. -/
structure MatchResult where
  id : String
  score : Int
  metadata : Option Meta
deriving DecidableEq

/-- Building one result dict in the `for i, (score, idx) in ...` loop of
`FAISSClient.query`: `original_id = self.id_mapping.get(str(idx), str(idx))`,
and metadata attached only `if include_metadata and original_id in
self.metadata`. -/
def mkMatch (st : FaissState) (includeMetadata : Bool) (p : Nat × Int) : MatchResult :=
  let faissIdx := toString p.1
  let originalId := (dictGet st.idMapping faissIdx).getD faissIdx
  { id := originalId
    score := p.2
    metadata := if includeMetadata then dictGet st.metadata originalId else none }

/-- `FAISSClient.query`: empty index short-circuits to `[]`; otherwise
the index is searched for `min(top_k, ntotal)` nearest rows (the FAISS
search raises when the query vector's length differs from the index
dimension). -/
def FaissState.query (norm : List Int → List Int) (st : FaissState)
    (embedding : List Int) (top_k : Nat) (includeMetadata : Bool) :
    Except String (List MatchResult) :=
  if st.vectors.length = 0 then .ok []
  else if embedding.length ≠ st.dimension then .error "faiss search: dimension mismatch"
  else
    let q := norm embedding
    let results := (sortDesc (scoredPositions st.vectors q)).take (min top_k st.vectors.length)
    .ok (results.map (mkMatch st includeMetadata))

/-- `FAISSClient.__init__`: when the index file exists all three pieces
are read (a missing mapping file raises `FileNotFoundError` at `open`),
and the loaded state is used as-is — the constructor performs no
consistency check between the vector count and the mappings.  When the
index file is absent a fresh empty index is created. -/
def faissInit (dimension : Nat) (indexFile : Option (List (List Int)))
    (metadataFile : Option (List (String × Meta)))
    (idMappingFile : Option (List (String × String))) : Except String FaissState :=
  match indexFile with
  | some vecs =>
    match metadataFile with
    | none => .error "FileNotFoundError: metadata file"
    | some md =>
      match idMappingFile with
      | none => .error "FileNotFoundError: id mapping file"
      | some im => .ok { dimension := dimension, vectors := vecs, metadata := md, idMapping := im }
  | none => .ok { dimension := dimension, vectors := [], metadata := [], idMapping := [] }

/-- **C1**: `FAISSClient.upsert` with a wrong-length embedding does
raise, and the vector count is unchanged — but the embedding lengths
are *not* validated before any write: the metadata and id-mapping
dictionaries are already mutated when the exception fires, so the call
is a partial write, contradicting the claim. -/
theorem c1_upsert_no_validation_before_write :
    (FaissState.upsert id ⟨2, [], [], []⟩ [("a", [(1 : Int)], [("text", "t")])]).1.isSome = true ∧
    (FaissState.upsert id ⟨2, [], [], []⟩ [("a", [(1 : Int)], [("text", "t")])]).2 =
      ⟨2, [], [("a", [("text", "t")])], [("0", "a")]⟩ ∧
    (⟨2, [], [("a", [("text", "t")])], [("0", "a")]⟩ : FaissState).metadata ≠
      (⟨2, [], [], []⟩ : FaissState).metadata := by
  decide

/-- **C2**: upserting a record whose id already exists appends a second
row instead of overwriting: after upserting id `"a"` twice, the index
holds two rows and a top-2 query returns two matches that both carry id
`"a"`, contradicting insert-or-overwrite semantics. -/
theorem c2_reupsert_duplicates_id :
    (FaissState.upsert id
        ((FaissState.upsert id ⟨2, [], [], []⟩ [("a", [(1 : Int), 0], [("text", "t1")])]).2)
        [("a", [(1 : Int), 0], [("text", "t2")])]).1 = none ∧
    (FaissState.upsert id
        ((FaissState.upsert id ⟨2, [], [], []⟩ [("a", [(1 : Int), 0], [("text", "t1")])]).2)
        [("a", [(1 : Int), 0], [("text", "t2")])]).2.vectors.length = 2 ∧
    ((FaissState.upsert id
        ((FaissState.upsert id ⟨2, [], [], []⟩ [("a", [(1 : Int), 0], [("text", "t1")])]).2)
        [("a", [(1 : Int), 0], [("text", "t2")])]).2.query id [(1 : Int), 0] 2 true).map
      (fun ms => ms.map MatchResult.id) = .ok ["a", "a"] := by
  decide

/-- **C4**: `FAISSClient.__init__` loads persisted state without any
consistency check: a state whose vector store holds one row while the
position-to-id mapping is empty is accepted, and the resulting index
object serves queries — the constructor does not fail fast on corrupt
state. -/
theorem c4_init_accepts_inconsistent_state :
    faissInit 2 (some [[(1 : Int), 0]]) (some []) (some []) =
      .ok ⟨2, [[(1 : Int), 0]], [], []⟩ ∧
    (⟨2, [[(1 : Int), 0]], [], []⟩ : FaissState).vectors.length ≠
      (⟨2, [[(1 : Int), 0]], [], []⟩ : FaissState).idMapping.length ∧
    (⟨2, [[(1 : Int), 0]], [], []⟩ : FaissState).query id [(1 : Int), 0] 1 true =
      .ok [⟨"0", 1, none⟩] := by
  decide

theorem length_insertDesc (x : Nat × Int) (l : List (Nat × Int)) :
    (insertDesc x l).length = l.length + 1 := by
  induction l with
  | nil => rfl
  | cons y ys ih =>
    rw [insertDesc]
    split
    · simp [ih]
    · simp

theorem length_sortDesc (l : List (Nat × Int)) : (sortDesc l).length = l.length := by
  induction l with
  | nil => rfl
  | cons x xs ih => rw [sortDesc, length_insertDesc, ih, List.length_cons]

theorem length_scoredPositions (rows : List (List Int)) (q : List Int) :
    (scoredPositions rows q).length = rows.length := by
  simp [scoredPositions]

theorem mem_of_mem_insertDesc {x y : Nat × Int} {l : List (Nat × Int)}
    (h : y ∈ insertDesc x l) : y = x ∨ y ∈ l := by
  induction l with
  | nil =>
    rw [insertDesc] at h
    exact Or.inl (List.mem_singleton.mp h)
  | cons z zs ih =>
    rw [insertDesc] at h
    split at h
    · rcases List.mem_cons.mp h with h1 | h2
      · exact Or.inr (List.mem_cons.mpr (Or.inl h1))
      · rcases ih h2 with h3 | h4
        · exact Or.inl h3
        · exact Or.inr (List.mem_cons.mpr (Or.inr h4))
    · rcases List.mem_cons.mp h with h1 | h2
      · exact Or.inl h1
      · exact Or.inr h2

theorem mem_of_mem_sortDesc {y : Nat × Int} {l : List (Nat × Int)}
    (h : y ∈ sortDesc l) : y ∈ l := by
  induction l with
  | nil => rw [sortDesc] at h; exact h
  | cons x xs ih =>
    rw [sortDesc] at h
    rcases mem_of_mem_insertDesc h with h1 | h2
    · simp [h1]
    · simp [ih h2]

theorem fst_lt_of_mem_scoredPositions {rows : List (List Int)} {q : List Int}
    {p : Nat × Int} (h : p ∈ scoredPositions rows q) : p.1 < rows.length := by
  simp only [scoredPositions, List.mem_map, List.mem_range] at h
  obtain ⟨i, hi, hp⟩ := h
  rw [← hp]
  exact hi

/-- **C7**: `FAISSClient.query` returns `.ok []` on an empty index
(never an error), and every successful query returns exactly
`min(top_k, ntotal)` matches — at most `top_k`, and strictly fewer than
`top_k` when the index holds fewer records. -/
theorem c7_query_topk_bounds :
    ∀ (norm : List Int → List Int) (st : FaissState) (emb : List Int) (k : Nat),
      (st.vectors.length = 0 → st.query norm emb k true = .ok []) ∧
      (∀ ms, st.query norm emb k true = .ok ms →
        ms.length = min k st.vectors.length ∧ ms.length ≤ k ∧
        (st.vectors.length < k → ms.length < k)) := by
  intro norm st emb k
  constructor
  · intro h0
    rw [FaissState.query, if_pos h0]
  · intro ms hms
    by_cases h0 : st.vectors.length = 0
    · rw [FaissState.query, if_pos h0] at hms
      injection hms with h
      rw [← h, h0]
      simp
    · by_cases hd : emb.length = st.dimension
      · rw [FaissState.query, if_neg h0, if_neg (by simp [hd])] at hms
        injection hms with h
        have hl : ms.length = min (min k st.vectors.length) st.vectors.length := by
          rw [← h, List.length_map, List.length_take, length_sortDesc, length_scoredPositions]
        refine ⟨by omega, by omega, fun hlt => by omega⟩
      · rw [FaissState.query, if_neg h0, if_pos (by simp [hd])] at hms
        exact absurd hms (by simp)

/-- Witness for C7: an empty index answers `[]`, and a one-record index
returns `min 5 1 = 1` matches for `top_k = 5`. -/
theorem c7_query_topk_bounds_witness :
    (FaissState.query id ⟨1, [], [], []⟩ [(1 : Int)] 5 true = .ok []) ∧
    ([⟨"0", (2 : Int), none⟩] : List MatchResult).length = min 5 1 := by
  constructor
  · exact (c7_query_topk_bounds id ⟨1, [], [], []⟩ [(1 : Int)] 5).1 rfl
  · exact ((c7_query_topk_bounds id ⟨1, [[(2 : Int)]], [], []⟩ [(1 : Int)] 5).2
      [⟨"0", (2 : Int), none⟩] (by decide)).1

/-- **C10**: a query never fails because a returned position is missing
from the position-to-id mapping: each match's id is
`id_mapping.get(str(idx), str(idx))`, which falls back to the decimal
string of the position itself; and a match whose resolved id is absent
from the metadata dictionary simply carries no metadata. -/
theorem c10_query_missing_mapping_fallback :
    ∀ (norm : List Int → List Int) (st : FaissState) (emb : List Int) (k : Nat),
      (emb.length = st.dimension → ∃ ms, st.query norm emb k true = .ok ms) ∧
      (∀ ms, st.query norm emb k true = .ok ms → ∀ m ∈ ms,
        (∃ pos, pos < st.vectors.length ∧
          m.id = ((dictGet st.idMapping (toString pos)).getD (toString pos)) ∧
          (dictGet st.idMapping (toString pos) = none → m.id = toString pos)) ∧
        (dictGet st.metadata m.id = none → m.metadata = none)) := by
  intro norm st emb k
  constructor
  · intro hdim
    by_cases h0 : st.vectors.length = 0
    · exact ⟨[], by rw [FaissState.query, if_pos h0]⟩
    · exact ⟨_, by rw [FaissState.query, if_neg h0, if_neg (by simp [hdim])]⟩
  · intro ms hms m hm
    by_cases h0 : st.vectors.length = 0
    · rw [FaissState.query, if_pos h0] at hms
      injection hms with h
      rw [← h] at hm
      simp at hm
    · by_cases hd : emb.length = st.dimension
      · rw [FaissState.query, if_neg h0, if_neg (by simp [hd])] at hms
        injection hms with h
        rw [← h] at hm
        obtain ⟨p, hp, hpm⟩ := List.mem_map.mp hm
        have hple := mem_of_mem_sortDesc (List.mem_of_mem_take hp)
        have hpos := fst_lt_of_mem_scoredPositions hple
        constructor
        · refine ⟨p.1, hpos, ?_, ?_⟩
          · rw [← hpm]; rfl
          · intro hnone
            rw [← hpm]
            show (dictGet st.idMapping (toString p.1)).getD (toString p.1) = toString p.1
            rw [hnone]
            rfl
        · intro hnone
          rw [← hpm] at hnone ⊢
          simp only [mkMatch] at hnone ⊢
          simp [hnone]
      · rw [FaissState.query, if_neg h0, if_pos (by simp [hd])] at hms
        exact absurd hms (by simp)

/-- Witness for C10: a one-vector index with empty mappings answers a
query with id `"0"` (the position string) and no metadata. -/
theorem c10_query_missing_mapping_fallback_witness :
    (⟨"0", (2 : Int), none⟩ : MatchResult).id = toString 0 ∧
    (⟨"0", (2 : Int), none⟩ : MatchResult).metadata = none := by
  have h := (c10_query_missing_mapping_fallback id ⟨1, [[(2 : Int)]], [], []⟩ [(1 : Int)] 1).2
    [⟨"0", (2 : Int), none⟩] (by decide) ⟨"0", (2 : Int), none⟩ (by simp)
  obtain ⟨⟨pos, hpos, hid, hfb⟩, hmeta⟩ := h
  have hz : pos = 0 := by simp at hpos; omega
  subst hz
  exact ⟨hfb rfl, hmeta rfl⟩

/-! ## Managed index and factory: `PineconeClient`, `create_vector_client` -/

/-- Arguments of the `pc.create_index(...)` call issued by
`PineconeClient.__init__` when the named index does not exist. -/
structure CreateIndexCall where
  name : String
  dimension : Nat
  metric : String
deriving DecidableEq

/-- The index bootstrap in `PineconeClient.__init__`: list the existing
indexes; if the requested name is absent, create it — with the literal
`dimension=1536` and `metric='cosine'` that appear in the source.
Returns the creation call issued, if any. -/
def pineconeEnsureIndex (existingIndexes : List String) (indexName : String) :
    Option CreateIndexCall :=
  if indexName ∈ existingIndexes then none
  else some { name := indexName, dimension := 1536, metric := "cosine" }

/-- `Settings.EMBEDDING_DIMENSION` default from `app/core/config.py`. -/
def EMBEDDING_DIMENSION_default : Nat := 768

/-- The client returned by `create_vector_client`. -/
inductive VectorClient where
  | pinecone (indexName : String) (created : Option CreateIndexCall)
  | faiss (st : FaissState)
deriving DecidableEq

/-- `create_vector_client(index_name, dimension)`: prefer Pinecone when
the library is importable, `PINECONE_API_KEY` is set and initialization
succeeds (`pineconeInitOk` models the `try/except` around the remote
calls); otherwise fall back to FAISS; otherwise raise.  As in the
source, the `dimension` argument is passed only to the FAISS
constructor — `PineconeClient` is constructed without it. -/
def create_vector_client (pineconeAvailable apiKeySet pineconeInitOk : Bool)
    (existingIndexes : List String) (faissAvailable : Bool)
    (indexFile : Option (List (List Int)))
    (metadataFile : Option (List (String × Meta)))
    (idMappingFile : Option (List (String × String)))
    (indexName : String) (dimension : Nat) : Except String VectorClient :=
  if pineconeAvailable && apiKeySet && pineconeInitOk then
    .ok (.pinecone indexName (pineconeEnsureIndex existingIndexes indexName))
  else if faissAvailable then
    (faissInit dimension indexFile metadataFile idMappingFile).map .faiss
  else
    .error "No vector database available (neither Pinecone nor FAISS)"

/-- **C3 counterexample**: with the configured default dimension (768)
passed to the factory, the managed index absent from the listing is
created with dimension 1536 — not the configured dimension. -/
theorem c3_created_dimension_not_configured :
    create_vector_client true true true [] true none none none
        "policy-index" EMBEDDING_DIMENSION_default =
      .ok (.pinecone "policy-index" (some ⟨"policy-index", 1536, "cosine"⟩)) ∧
    (1536 : Nat) ≠ EMBEDDING_DIMENSION_default := by
  decide

/-- **C3 (amended)**: on first reference the managed variant lists the
existing indexes and creates the named index exactly when it is absent,
with cosine metric — but with the hardcoded dimension 1536, regardless
of the dimension given to the factory or configured (default 768). -/
theorem c3_ensure_index_amended :
    ∀ (existing : List String) (name : String) (dim : Nat),
      (name ∉ existing →
        create_vector_client true true true existing true none none none name dim =
          .ok (.pinecone name (some ⟨name, 1536, "cosine"⟩))) ∧
      (name ∈ existing →
        create_vector_client true true true existing true none none none name dim =
          .ok (.pinecone name none)) := by
  intro existing name dim
  constructor
  · intro h
    simp [create_vector_client, pineconeEnsureIndex, h]
  · intro h
    simp [create_vector_client, pineconeEnsureIndex, h]

/-- Witness for the amended C3: a concrete listing without the name
leads to a creation call with dimension 1536. -/
theorem c3_ensure_index_amended_witness :
    create_vector_client true true true ["other"] true none none none "policy-index" 768 =
      .ok (.pinecone "policy-index" (some ⟨"policy-index", 1536, "cosine"⟩)) :=
  (c3_ensure_index_amended ["other"] "policy-index" 768).1 (by decide)

/-! ## Embedding gateway: `app/services/embedding_engine.py`

The three provider back-ends are remote HTTP services, so they enter
the model as function-valued fields of `EmbedEnv`.  `asyncio.gather`
over the per-item tasks is modelled by `mapExcept`: results collected
in input order, any single failure failing the whole batch (which
exception surfaces first differs, but the claims only need failure). -/

/-- Collect `Except` results in order, failing on the first failure —
the error/ordering behaviour of `await asyncio.gather(*tasks)`. -/
def mapExcept {α β : Type} (f : α → Except String β) : List α → Except String (List β)
  | [] => .ok []
  | x :: xs =>
    match f x with
    | .error e => .error e
    | .ok v =>
      match mapExcept f xs with
      | .error e => .error e
      | .ok vs => .ok (v :: vs)

/-- Configuration and remote collaborators of the embedding gateway:
which API keys are set (`openai_client` exists iff `OPENAI_API_KEY`
is), and the provider HTTP calls themselves. -/
structure EmbedEnv where
  openaiKey : Bool
  geminiKey : Bool
  deepseekKey : Bool
  openaiEmbedOne : String → Except String (List Int)
  openaiEmbedBatch : List String → Except String (List (List Int))
  geminiEmbed : String → Except String (List Int)
  deepseekEmbed : String → Except String (List Int)

/-- `get_embedding(text, provider)`: the `if/elif/else` provider
dispatch; an unknown provider or missing key raises `ValueError`. -/
def get_embedding (env : EmbedEnv) (text : String) (provider : String) :
    Except String (List Int) :=
  if provider == "openai" && env.openaiKey then env.openaiEmbedOne text
  else if provider == "gemini" && env.geminiKey then env.geminiEmbed text
  else if provider == "deepseek" && env.deepseekKey then env.deepseekEmbed text
  else .error "Provider not available or API key missing"

/-- `get_embeddings_batch(texts, provider)`: native OpenAI batch call
when available, otherwise per-item calls gathered in order. -/
def get_embeddings_batch (env : EmbedEnv) (texts : List String) (provider : String) :
    Except String (List (List Int)) :=
  if provider == "openai" && env.openaiKey then env.openaiEmbedBatch texts
  else mapExcept (fun t => get_embedding env t provider) texts

theorem mapExcept_congr {α β : Type} {f g : α → Except String β} :
    ∀ {l : List α}, (∀ a ∈ l, f a = g a) → mapExcept f l = mapExcept g l := by
  intro l
  induction l with
  | nil => intro _; rfl
  | cons x xs ih =>
    intro h
    rw [mapExcept, mapExcept, h x (by simp), ih (fun a ha => h a (by simp [ha]))]

theorem mapExcept_ok {α β : Type} (f : α → Except String β) :
    ∀ (l : List α) (vs : List β), mapExcept f l = .ok vs →
      vs.length = l.length ∧
      ∀ (i : Nat) (x : α), l[i]? = some x → ∃ v, vs[i]? = some v ∧ f x = .ok v := by
  intro l
  induction l with
  | nil =>
    intro vs h
    rw [mapExcept] at h
    injection h with h
    rw [← h]
    exact ⟨rfl, by intro i x hx; simp at hx⟩
  | cons x xs ih =>
    intro vs h
    rw [mapExcept] at h
    cases hfx : f x with
    | error e => rw [hfx] at h; exact absurd h (by simp)
    | ok v =>
      rw [hfx] at h
      cases hrest : mapExcept f xs with
      | error e => rw [hrest] at h; exact absurd h (by simp)
      | ok ws =>
        rw [hrest] at h
        injection h with h
        obtain ⟨hlen, hget⟩ := ih ws hrest
        refine ⟨by rw [← h, List.length_cons, hlen, List.length_cons], ?_⟩
        intro i y hy
        match i with
        | 0 =>
          rw [List.getElem?_cons_zero] at hy
          injection hy with hy
          exact ⟨v, by rw [← h, List.getElem?_cons_zero], by rw [← hy, hfx]⟩
        | i + 1 =>
          rw [List.getElem?_cons_succ] at hy
          obtain ⟨w, hw, hfw⟩ := hget i y hy
          exact ⟨w, by rw [← h, List.getElem?_cons_succ, hw], hfw⟩

theorem mapExcept_error_of_mem {α β : Type} {f : α → Except String β} :
    ∀ {l : List α} (x : α), x ∈ l → ∀ e, f x = .error e →
      ∃ e', mapExcept f l = .error e' := by
  intro l
  induction l with
  | nil => intro x hx; cases hx
  | cons y ys ih =>
    intro x hx e hfx
    cases hfy : f y with
    | error d => exact ⟨d, by rw [mapExcept, hfy]⟩
    | ok v =>
      rcases List.mem_cons.mp hx with h1 | h2
      · rw [h1, hfy] at hfx
        exact absurd hfx (by simp)
      · obtain ⟨e', he'⟩ := ih x h2 e hfx
        exact ⟨e', by rw [mapExcept, hfy, he']⟩

/-- **C8**: under the OpenAI API's documented batch contract (the
native batch endpoint returns one embedding per input, in input order —
modelled by the `hnative` hypothesis), `get_embeddings_batch` preserves
input order for every provider: the `i`-th result is what
`get_embedding` returns on the `i`-th text, and any single failing item
fails the whole batch. -/
theorem c8_embed_many_order_and_failfast :
    ∀ (env : EmbedEnv) (texts : List String) (provider : String),
      (∀ ts, env.openaiEmbedBatch ts = mapExcept env.openaiEmbedOne ts) →
      (∀ vs, get_embeddings_batch env texts provider = .ok vs →
        vs.length = texts.length ∧
        ∀ (i : Nat) (t : String), texts[i]? = some t →
          ∃ v, vs[i]? = some v ∧ get_embedding env t provider = .ok v) ∧
      (∀ t, t ∈ texts → ∀ e, get_embedding env t provider = .error e →
        ∃ e', get_embeddings_batch env texts provider = .error e') := by
  intro env texts provider hnative
  have hbatch : get_embeddings_batch env texts provider =
      mapExcept (fun t => get_embedding env t provider) texts := by
    rw [get_embeddings_batch]
    by_cases hp : (provider == "openai" && env.openaiKey) = true
    · rw [if_pos hp, hnative]
      exact mapExcept_congr (fun a _ => by rw [get_embedding, if_pos hp])
    · rw [if_neg hp]
  constructor
  · intro vs hvs
    rw [hbatch] at hvs
    exact mapExcept_ok _ texts vs hvs
  · intro t ht e he
    rw [hbatch]
    exact mapExcept_error_of_mem t ht e he

/-- A concrete embedding environment for the C8 witness: an OpenAI key
whose batch endpoint satisfies the per-item contract. -/
def c8Env : EmbedEnv where
  openaiKey := true
  geminiKey := true
  deepseekKey := false
  openaiEmbedOne := fun t => .ok [(t.length : Int)]
  openaiEmbedBatch := fun ts => mapExcept (fun t => Except.ok [(t.length : Int)]) ts
  geminiEmbed := fun t => .ok [(t.length : Int), 1]
  deepseekEmbed := fun _ => .error "deepseek down"

/-- Witness for C8: a two-text batch through the native OpenAI path has
as many results as inputs. -/
theorem c8_embed_many_order_and_failfast_witness :
    (get_embeddings_batch c8Env ["a", "bb"] "openai" = .ok [[(1 : Int)], [(2 : Int)]]) ∧
    ([[(1 : Int)], [(2 : Int)]] : List (List Int)).length = (["a", "bb"] : List String).length := by
  refine ⟨by decide, ?_⟩
  exact ((c8_embed_many_order_and_failfast c8Env ["a", "bb"] "openai"
    (fun ts => rfl)).1 [[(1 : Int)], [(2 : Int)]] (by decide)).1

/-! ## HTTP endpoint: `run_query` in `app/api/endpoints.py`

Only the stages the validation claims depend on are modelled
explicitly; steps 3–5 (embedding, upsert, per-question answering) sit
behind the `rest` parameter, since everything they return — success or
any raised exception — flows through the same outermost
`except Exception` handler.  FastAPI's `HTTPException` subclasses
`Exception`, so a `raise HTTPException(422, ...)` from inside the `try`
block is caught by that handler and re-raised as a 500. -/

/-- A Python exception as the endpoint sees it: either an
`HTTPException(status_code, detail)` or any other exception. -/
inductive PyErr where
  | httpExc (statusCode : Nat) (detail : String)
  | other (msg : String)
deriving DecidableEq

/-- Python `str(e)`; for a FastAPI `HTTPException` this is
`f"{status_code}: {detail}"`. -/
def pyErrStr : PyErr → String
  | .httpExc code detail => toString code ++ ": " ++ detail
  | .other msg => msg

/-- Python `str.strip()`. -/
def pyStrip (s : String) : String :=
  String.mk (((s.toList.dropWhile Char.isWhitespace).reverse.dropWhile Char.isWhitespace).reverse)

/-- Python `str.lower()`. -/
def pyLower (s : String) : String :=
  String.mk (s.toList.map Char.toLower)

/-- Python `str.endswith(suffix)`. -/
def strEndsWith (s suffix : String) : Bool :=
  suffix.toList.isSuffixOf s.toList

/-- The extension dispatch at the top of `run_query` (applied to the
already-parsed URL path, query string removed): `.pdf` and `.docx`
case-insensitively; anything else raises `HTTPException(400, ...)`
before the `try` block. -/
def docTypeOf (urlPath : String) : Option String :=
  let p := pyLower urlPath
  if strEndsWith p ".pdf" then some "pdf"
  else if strEndsWith p ".docx" then some "docx"
  else none

/-- `run_query(payload)`: the extension check (outside the `try`), then
the `try` block — extract text, reject blank text with
`HTTPException(422, ...)`, chunk with the default `size=300,
overlap=50`, reject an empty chunk list with `HTTPException(422, ...)`,
hand the chunks to the rest of the pipeline — and the outermost
`except Exception` which converts *every* exception raised inside the
`try`, the 422 `HTTPException`s included, into
`HTTPException(500, "Failed to process request: " + str(e))`. -/
def run_query {ρ : Type} (urlPath : String) (extract : String → Except PyErr String)
    (rest : List String → Except PyErr ρ) : Except PyErr ρ :=
  match docTypeOf urlPath with
  | none => .error (.httpExc 400 "Only PDF and DOCX URLs are supported.")
  | some docType =>
    let inner : Except PyErr ρ :=
      match extract docType with
      | .error e => .error e
      | .ok text =>
        if pyStrip text = "" then
          .error (.httpExc 422 "Failed to extract any text from the document.")
        else
          match chunk_text text 300 50 with
          | none => .error (.other "chunk_text loop did not terminate")
          | some chunks =>
            if chunks.isEmpty then
              .error (.httpExc 422 "No valid chunks generated from document text.")
            else rest chunks
    match inner with
    | .ok r => .ok r
    | .error e => .error (.httpExc 500 ("Failed to process request: " ++ pyErrStr e))

/-- **C9**: a document yielding whitespace-only text makes `run_query`
raise the 422 `HTTPException` inside the `try` block, but the
outermost `except Exception` catches it and the caller receives a
generic `HTTPException(500, "Failed to process request: 422: ...")` —
an internal-server failure, not the claimed client-input condition. -/
theorem c9_blank_text_surfaces_as_500 :
    run_query "doc.pdf" (fun _ => Except.ok "   ") (fun _ => Except.ok ([] : List String)) =
      .error (.httpExc 500
        "Failed to process request: 422: Failed to extract any text from the document.") := by
  decide

end BajajFin
